import Mathlib

/-!
Shallow embedding of `sbe/semiconductors.py` (pySBE) over the reals, together
with theorems settling the frozen claims about the band-structure core.

Numeric arrays become `List ℝ`; Python exceptions become `Except String`;
the one place where IEEE-754 special values (`nan`, `inf`) are semantically
relevant — the density-of-states kernel, which multiplies a possibly-NaN
power by a step gate and then applies `np.nan_to_num` — is modelled with an
explicit value type `FVal` carrying those special values.
-/

set_option maxHeartbeats 1000000
set_option maxRecDepth 4000

noncomputable section

namespace SBE

/-- Largest IEEE-754 double: `numpy.nan_to_num` replaces `+inf` with this value
(and `-inf` with its negation). -/
def maxFloat : ℝ := 1.7976931348623157 * 10 ^ 308

namespace const

/-- Modelled from the spec: the constants-provider module `sbe.constants` is not
among the sources; per the spec it exposes process-wide read-only physical
constants.  Electron charge in coulomb. -/
def e : ℝ := 1.602176634 / 10 ^ 19

/-- Modelled from the spec: reduced Planck constant (the `h` of `sbe.constants`,
used as ħ in the parabolic dispersion ħ²k²/(2m)). -/
def h : ℝ := 1.0545718 / 10 ^ 34

/-- Modelled from the spec: free-electron mass in kg. -/
def m0 : ℝ := 9.1093837015 / 10 ^ 31

/-- Modelled from the spec: Boltzmann constant in J/K. -/
def kb : ℝ := 1.380649 / 10 ^ 23

/-- Modelled from the spec: vacuum permittivity. -/
def eps0 : ℝ := 8.8541878128 / 10 ^ 12

/-- Modelled from the spec: pi. -/
def pi : ℝ := Real.pi

/-- Modelled from the spec: Rydberg energy in J. -/
def e_Ry : ℝ := 2.1798723611035 / 10 ^ 18

end const

theorem const_e_pos : 0 < const.e := by norm_num [const.e]

theorem const_h_pos : 0 < const.h := by norm_num [const.h]

theorem const_m0_pos : 0 < const.m0 := by norm_num [const.m0]

/-- `np.sign` on reals. -/
def npsign (x : ℝ) : ℝ := if 0 < x then 1 else if x < 0 then -1 else 0

/-- A floating-point style value: an ordinary real, NaN, or a signed infinity. -/
inductive FVal where
  | num (x : ℝ)
  | nan
  | inf
  | ninf

/-- IEEE-754 multiplication on `FVal` (NaN propagates; `inf * 0 = nan`). -/
def FVal.mul : FVal → FVal → FVal
  | num a, num b => num (a * b)
  | nan, _ => nan
  | num _, nan => nan
  | inf, nan => nan
  | ninf, nan => nan
  | inf, num b => if 0 < b then inf else if b < 0 then ninf else nan
  | num a, inf => if 0 < a then inf else if a < 0 then ninf else nan
  | ninf, num b => if 0 < b then ninf else if b < 0 then inf else nan
  | num a, ninf => if 0 < a then ninf else if a < 0 then inf else nan
  | inf, inf => inf
  | ninf, ninf => inf
  | inf, ninf => ninf
  | ninf, inf => ninf

/-- `np.nan_to_num`: NaN becomes 0, infinities become the largest finite double. -/
def nan_to_num : FVal → ℝ
  | FVal.num x => x
  | FVal.nan => 0
  | FVal.inf => maxFloat
  | FVal.ninf => -maxFloat

/-- `numpy` elementwise power `x ** p` for the exponents appearing in the DOS
formula (`p ∈ {-1/2, 0, 1/2}`): any base to the power 0 is 1, a negative base
with a fractional exponent is NaN, `0 ** p` is 0 for `p > 0` and `inf` for
`p < 0`, and a positive base gives the ordinary real power. -/
def npPow (x p : ℝ) : FVal :=
  if p = 0 then FVal.num 1
  else if x < 0 then FVal.nan
  else if x = 0 then (if 0 < p then FVal.num 0 else FVal.inf)
  else FVal.num (x ^ p)

/-- The product inside `_dos_single_subband`, before `np.nan_to_num` is applied:
`omega_D / (2π)^dim * (2 meff/ħ/ħ)^(dim/2) * (energy*alpha)^((dim-2)/2)
 * (sign(energy)+1) * 0.5`. -/
def dosRaw (energy meff : ℝ) (dim : ℕ) (units : String) : FVal :=
  let omega_D : ℝ := if dim = 1 then 2 else if dim = 2 then 2 * Real.pi else 4 * Real.pi
  let alpha : ℝ := if units = "eV" then const.e else 1.0
  FVal.mul (FVal.mul (FVal.mul (FVal.mul
    (FVal.num (omega_D / (2 * Real.pi) ^ dim))
    (FVal.num ((2 * meff / const.h / const.h) ^ ((dim : ℝ) / 2))))
    (npPow (energy * alpha) (((dim : ℝ) - 2) / 2)))
    (FVal.num (npsign energy + 1.0)))
    (FVal.num 0.5)

/-- `_dos_single_subband(energy, meff, dim, units)` from the source: density of
states of a single parabolic subband, pointwise on one energy value. -/
def _dos_single_subband (energy meff : ℝ) (dim : ℕ) (units : String) : ℝ :=
  nan_to_num (dosRaw energy meff dim units)

/-- `fd(energy, ef, tempr)` from the source: the Fermi-Dirac function, with the
local Boltzmann constant `kb = 8.61733e-5` eV/K. -/
def fd (energy ef tempr : ℝ) : ℝ :=
  1.0 / (1.0 + Real.exp ((energy - ef) / (8.61733 / 10 ^ 5 * tempr)))

/-- Material-parameter record populated by `GaAs.__init__` (the fields consumed
by the band-structure model and the claims). -/
structure Material where
  Eg : ℝ
  Eso : ℝ
  me : ℝ
  mhh : ℝ
  mlh : ℝ
  mso : ℝ
  eps : ℝ
  n_reff : ℝ
  e_P : ℝ

/-- The fixed 3-tuple `self.mh = (self.mhh, self.mlh, self.mso)` of valence
masses (heavy-hole, light-hole, split-off). -/
def Material.mh (m : Material) : List ℝ := [m.mhh, m.mlh, m.mso]

/-- Selector for the temperature-dependence formula of `GaAs.__init__`
(`tempr_dep`): any string other than the two recognized ones leaves the
nominal gap unmodified. -/
inductive TemprDep where
  | varshni
  | odonnell
  | other

/-- `GaAs(tempr, tempr_dep)` from the source. -/
def GaAs (tempr : ℝ) (dep : TemprDep) : Material :=
  let gamma1 : ℝ := 6.98
  let gamma2 : ℝ := 2.06
  let gamma : ℝ := 0.5 * (gamma2 + gamma2)
  let Eg0 : ℝ := 1.519 * const.e
  let alpha : ℝ := 0.605
  let betha : ℝ := 204
  let coupling : ℝ := 3.0
  let phonon_energy : ℝ := 26.7
  let Eg : ℝ :=
    match dep with
    | TemprDep.varshni => Eg0 - const.e * 0.001 * alpha * tempr * tempr / (tempr + betha)
    | TemprDep.odonnell => Eg0 - const.e * 0.001 * phonon_energy * coupling *
        (1.0 / Real.tanh (phonon_energy * const.e * 0.001 / (2 * const.kb * tempr)) - 1.0)
    | TemprDep.other => Eg0
  { Eg := Eg
    Eso := -0.341 * const.e
    me := 0.0665 * const.m0
    mhh := const.m0 / (gamma1 - 2 * gamma)
    mlh := const.m0 / (gamma1 + 2 * gamma)
    mso := 0.172 * const.m0
    eps := 12.93
    n_reff := 3.61
    e_P := 28.8 }

/-- Material record populated by `Tc.__init__` (scalar hole mass). -/
structure MaterialQW where
  Eg : ℝ
  me : ℝ
  mh : ℝ
  eps : ℝ
  n_reff : ℝ

/-- `Tc(dim)` from the source (the `dim` argument is stored but not used by any
claimed behavior). -/
def Tc (_dim : ℕ) : MaterialQW :=
  { Eg := 1.519 * const.e
    me := 2 * const.m0
    mh := 2 * const.m0
    eps := 24.93
    n_reff := 3.61 }

/-- Run an `Except`-returning body over a list in order, collecting the results
(the shape of the Python `for j in range(...)` loops that can raise). -/
def exceptMapList {α : Type} (f : ℕ → Except String α) : List ℕ → Except String (List α)
  | [] => Except.ok []
  | j :: js =>
      match f j with
      | Except.error msg => Except.error msg
      | Except.ok a =>
          match exceptMapList f js with
          | Except.error msg => Except.error msg
          | Except.ok rest => Except.ok (a :: rest)

/-- `np.linspace a b n`: `n` evenly spaced points from `a` to `b` inclusive. -/
def linspace (a b : ℝ) (n : ℕ) : List ℝ :=
  (List.range n).map (fun i : ℕ => a + (b - a) * (i : ℝ) / ((n : ℝ) - 1))

/-- `np.trapz(y, x)`: trapezoidal quadrature of samples `y` on grid `x`. -/
def trapz : List ℝ → List ℝ → ℝ
  | y1 :: y2 :: ys, x1 :: x2 :: xs => (x2 - x1) * (y1 + y2) / 2 + trapz (y2 :: ys) (x2 :: xs)
  | _, _ => 0

/-- `np.min` on a nonempty list (the claims never exercise the empty case, on
which numpy raises). -/
def npMin (l : List ℝ) : ℝ := l.foldr min (l.headD 0)

/-- Ordering of interpolation nodes by abscissa. -/
def pairLE (p q : ℝ × ℝ) : Prop := p.1 ≤ q.1

instance : DecidableRel pairLE := fun p q => Real.decidableLE p.1 q.1

instance : IsTotal (ℝ × ℝ) pairLE := ⟨fun p q => le_total p.1 q.1⟩

instance : IsTrans (ℝ × ℝ) pairLE := ⟨fun _ _ _ h1 h2 => le_trans h1 h2⟩

/-- `scipy.interpolate.interp1d` sorts its nodes by abscissa first
(`assume_sorted=False` is the default). -/
def sortPairs (l : List (ℝ × ℝ)) : List (ℝ × ℝ) := List.insertionSort pairLE l

/-- Piecewise-linear interpolation through sorted nodes, extrapolating with the
first/last segment outside the sampled range (`fill_value="extrapolate"`). -/
def interpSorted : List (ℝ × ℝ) → ℝ → ℝ
  | [], _ => 0
  | [p], _ => p.2
  | [p, q], x => p.2 + (q.2 - p.2) * (x - p.1) / (q.1 - p.1)
  | p :: q :: r :: rest, x =>
      if x ≤ q.1 then p.2 + (q.2 - p.2) * (x - p.1) / (q.1 - p.1)
      else interpSorted (q :: r :: rest) x

/-- `interp1d(xs, ys, fill_value="extrapolate")` applied to a query point. -/
def interp1d (xs ys : List ℝ) (x : ℝ) : ℝ :=
  interpSorted (sortPairs (xs.zip ys)) x

/-- `BandStructure3D`: dimensionality, material, conduction/valence subband
edges (the per-temperature Fermi cache `self.ef` is threaded explicitly through
`get_Fermi_levels`). -/
structure BandStructure3D where
  dim : ℕ
  mat : Material
  edges_c : List ℝ
  edges_v : List ℝ

/-- `BandStructure3D.__init__`: the conduction edges are offset by the
material's band gap (`self.edges_c = self.edges_c + self.mat.Eg`). -/
def BandStructure3D.init (mat : Material) (edges_c edges_v : List ℝ) : BandStructure3D :=
  { dim := 3
    mat := mat
    edges_c := edges_c.map (fun x => x + mat.Eg)
    edges_v := edges_v }

/-- `self.n_sb_e = len(self.edges_c)`. -/
def BandStructure3D.n_sb_e (bs : BandStructure3D) : ℕ := bs.edges_c.length

/-- `self.n_sb_h = len(self.edges_v)`. -/
def BandStructure3D.n_sb_h (bs : BandStructure3D) : ℕ := bs.edges_v.length

/-- Error raised by the index checks. -/
def bandIndexErr : String := "ValueError: Band index exceeds maximal value"

/-- `BandStructure3D._cond_band(j, k)`. -/
def BandStructure3D._cond_band (bs : BandStructure3D) (j : ℕ) (k : ℝ) : Except String ℝ :=
  if bs.n_sb_e ≤ j then Except.error bandIndexErr
  else Except.ok (bs.edges_c.getD j 0 + const.h ^ 2 * k ^ 2 / (2 * bs.mat.me))

/-- `BandStructure3D._val_band(j, k)`: indices 0/1/2 select the heavy-hole,
light-hole and split-off masses; an in-range index above 2 yields Python's
`None` (modelled as `Except.ok none`), not an ordinary number. -/
def BandStructure3D._val_band (bs : BandStructure3D) (j : ℕ) (k : ℝ) :
    Except String (Option ℝ) :=
  if bs.n_sb_h ≤ j then Except.error bandIndexErr
  else if j = 0 then Except.ok (some (bs.edges_v.getD 0 0 - const.h ^ 2 * k ^ 2 / (2 * bs.mat.mhh)))
  else if j = 1 then Except.ok (some (bs.edges_v.getD 1 0 - const.h ^ 2 * k ^ 2 / (2 * bs.mat.mlh)))
  else if j = 2 then Except.ok (some (bs.edges_v.getD 2 0 - const.h ^ 2 * k ^ 2 / (2 * bs.mat.mso)))
  else Except.ok none

/-- `BandStructure3D._dipole(j1, j2, k)`: `p = sqrt(e * e_P * h / m0 * h / 2)`,
`d = p * Eg / (E_c(j2,k) - E_v(j1,k))`.  When `_val_band` yields `None`
(valence index above 2), the subtraction is a Python `TypeError`. -/
def BandStructure3D._dipole (bs : BandStructure3D) (j1 j2 : ℕ) (k : ℝ) : Except String ℝ :=
  if bs.n_sb_h ≤ j1 then Except.error bandIndexErr
  else if bs.n_sb_e ≤ j2 then Except.error bandIndexErr
  else do
    let p := Real.sqrt (const.e * bs.mat.e_P * const.h / const.m0 * const.h / 2)
    let ec ← bs._cond_band j2 k
    let evOpt ← bs._val_band j1 k
    match evOpt with
    | some ev => Except.ok (p * bs.mat.Eg / (ec - ev))
    | none => Except.error "TypeError: unsupported operand type for -: float and NoneType"

/-- The electrons branch of `BandStructure3D.dos`: sum the DOS kernel over all
conduction subbands, each shifted by its own edge, with the electron mass. -/
def BandStructure3D.dosElectrons (bs : BandStructure3D) (energy : List ℝ) : List ℝ :=
  energy.map (fun en =>
    (bs.edges_c.map (fun ec => _dos_single_subband (en - ec / const.e) bs.mat.me bs.dim "eV")).sum)

/-- The `(edge, mass)` pairs visited by the holes branch of
`BandStructure3D.dos`: `self.mat.mh[j]` is a lookup into the fixed 3-tuple of
valence masses and raises `IndexError` for `j ≥ 3`. -/
def BandStructure3D.holePairs (bs : BandStructure3D) : Except String (List (ℝ × ℝ)) :=
  exceptMapList (fun j =>
    match bs.mat.mh.get? j with
    | some m => Except.ok (bs.edges_v.getD j 0, m)
    | none => Except.error "IndexError: tuple index out of range")
    (List.range bs.n_sb_h)

/-- The holes branch of `BandStructure3D.dos`. -/
def BandStructure3D.dosHoles (bs : BandStructure3D) (energy : List ℝ) : Except String (List ℝ) :=
  (bs.holePairs).map (fun prs =>
    energy.map (fun en =>
      (prs.map (fun pr => _dos_single_subband (en + pr.1 / const.e) pr.2 bs.dim "eV")).sum))

/-- `BandStructure3D.dos(energy, carriers)`: the `"electrons"` string selects
the electron branch; every other string falls into the `else` branch (holes). -/
def BandStructure3D.dos (bs : BandStructure3D) (energy : List ℝ) (carriers : String) :
    Except String (List ℝ) :=
  if carriers = "electrons" then Except.ok (bs.dosElectrons energy) else bs.dosHoles energy

/-- The cached per-temperature data of `self.ef[tempr]`: the interpolation
nodes (integrated density ↦ candidate Fermi energy) for electrons and holes. -/
structure FermiEntry where
  elecX : List ℝ
  elecY : List ℝ
  holesX : List ℝ
  holesY : List ℝ

/-- `cbb = np.min(self.edges_c) / const.e` (eV). -/
def BandStructure3D.cbb (bs : BandStructure3D) : ℝ := npMin bs.edges_c / const.e

/-- `vbt = np.min(-self.edges_v) / const.e` (eV, hole reference direction). -/
def BandStructure3D.vbt (bs : BandStructure3D) : ℝ :=
  npMin (bs.edges_v.map (fun x => -x)) / const.e

/-- The electron candidate Fermi energies:
`np.linspace(self.mat.Eg / const.e * 0.5, cbb + 1.5, 50)`. -/
def BandStructure3D.elecProbe (bs : BandStructure3D) : List ℝ :=
  linspace (bs.mat.Eg / const.e * 0.5) (bs.cbb + 1.5) 50

/-- The electron integration grid: `np.linspace(cbb - 0.5, cbb + 5, 3000)`. -/
def BandStructure3D.elecEnergyGrid (bs : BandStructure3D) : List ℝ :=
  linspace (bs.cbb - 0.5) (bs.cbb + 5) 3000

/-- The hole candidate Fermi energies:
`np.linspace(-self.mat.Eg / const.e * 0.5, vbt + 1.0, 550)`. -/
def BandStructure3D.holesProbe (bs : BandStructure3D) : List ℝ :=
  linspace (-(bs.mat.Eg) / const.e * 0.5) (bs.vbt + 1.0) 550

/-- The hole integration grid: `np.linspace(vbt, vbt + 10, 350)`. -/
def BandStructure3D.holesEnergyGrid (bs : BandStructure3D) : List ℝ :=
  linspace bs.vbt (bs.vbt + 10) 350

/-- One integrated carrier density sample:
`np.trapz(fd(energy, ef, tempr) * dos, x=energy * const.e)`. -/
def concSample (energy dosVals : List ℝ) (tempr ef : ℝ) : ℝ :=
  trapz (List.zipWith (fun en dv => fd en ef tempr * dv) energy dosVals)
    (energy.map (fun en => en * const.e))

/-- The integration step of `get_Fermi_levels`, run only when the temperature
is not yet cached: build the electron and hole density↦Fermi-energy tables. -/
def BandStructure3D.buildEntry (bs : BandStructure3D) (tempr : ℝ) :
    Except String FermiEntry := do
  let dosE ← bs.dos bs.elecEnergyGrid "electrons"
  let concE := bs.elecProbe.map (fun ef => concSample bs.elecEnergyGrid dosE tempr ef)
  let dosH ← bs.dos bs.holesEnergyGrid "holes"
  let concH := bs.holesProbe.map (fun ef => concSample bs.holesEnergyGrid dosH tempr ef)
  Except.ok { elecX := concE, elecY := bs.elecProbe, holesX := concH, holesY := bs.holesProbe }

/-- Evaluating the cached interpolants at the requested density and undoing the
edge-relative offsets:
`return (-ef_h - np.min(-self.edges_v)) * const.e, (ef_el + np.min(self.edges_c)) * const.e`. -/
def BandStructure3D.evalEntry (bs : BandStructure3D) (ent : FermiEntry) (dens : ℝ) : ℝ × ℝ :=
  let ef_h := interp1d ent.holesX ent.holesY dens
  let ef_el := interp1d ent.elecX ent.elecY dens
  ((-ef_h - npMin (bs.edges_v.map (fun x => -x))) * const.e,
   (ef_el + npMin bs.edges_c) * const.e)

/-- `BandStructure3D.get_Fermi_levels(tempr, dens)` with the cache `self.ef`
threaded explicitly: on a cache miss the interpolation tables are built and
stored; the pair (hole level, electron level) is returned together with the
updated cache. -/
def BandStructure3D.get_Fermi_levels (bs : BandStructure3D)
    (cache : ℝ → Option FermiEntry) (tempr dens : ℝ) :
    Except String ((ℝ × ℝ) × (ℝ → Option FermiEntry)) :=
  match cache tempr with
  | some ent => Except.ok (bs.evalEntry ent dens, cache)
  | none => (bs.buildEntry tempr).map (fun ent =>
      (bs.evalEntry ent dens, fun t => if t = tempr then some ent else cache t))

/-- `BandStructureQW`: the quantum-well specialization (fields as in the bulk
model, but over a scalar-hole-mass material as used by its `_val_band`). -/
structure BandStructureQW where
  dim : ℕ
  mat : MaterialQW
  edges_c : List ℝ
  edges_v : List ℝ

/-- `BandStructureQW.__init__`: the bulk constructor followed by `self.dim = 2`. -/
def BandStructureQW.init (mat : MaterialQW) (edges_c edges_v : List ℝ) : BandStructureQW :=
  { dim := 2
    mat := mat
    edges_c := edges_c.map (fun x => x + mat.Eg)
    edges_v := edges_v }

/-- `self.n_sb_e = len(self.edges_c)` (inherited from the bulk constructor). -/
def BandStructureQW.n_sb_e (bs : BandStructureQW) : ℕ := bs.edges_c.length

/-- `self.n_sb_h = len(self.edges_v)` (inherited from the bulk constructor). -/
def BandStructureQW.n_sb_h (bs : BandStructureQW) : ℕ := bs.edges_v.length

/-- `BandStructureQW._cond_band(j, k)`. -/
def BandStructureQW._cond_band (bs : BandStructureQW) (j : ℕ) (k : ℝ) : Except String ℝ :=
  if bs.n_sb_e ≤ j then Except.error bandIndexErr
  else Except.ok (bs.edges_c.getD j 0 + const.h ^ 2 * k ^ 2 / (2 * bs.mat.me))

/-- `BandStructureQW._val_band(j, k)`: note that the guard in the source
compares `j` against `self.n_sb_e` (the number of conduction edges); when the
guard passes, `self.edges_v[j]` itself can still be out of range, which is a
numpy `IndexError`. -/
def BandStructureQW._val_band (bs : BandStructureQW) (j : ℕ) (k : ℝ) : Except String ℝ :=
  if bs.n_sb_e ≤ j then Except.error bandIndexErr
  else
    match bs.edges_v.get? j with
    | some ev => Except.ok (ev - const.h ^ 2 * k ^ 2 / (2 * bs.mat.mh))
    | none => Except.error "IndexError: index out of bounds for axis 0"

/-! ### Basic facts about the floating-point model -/

theorem npPow_eq_nan_of_neg (x p : ℝ) (hp : p ≠ 0) (hx : x < 0) : npPow x p = FVal.nan := by
  simp [npPow, hp, hx]

theorem npPow_zero_of_pos (p : ℝ) (hp : 0 < p) : npPow 0 p = FVal.num 0 := by
  simp [npPow, hp, hp.ne']

theorem npPow_zero_of_neg (p : ℝ) (hp : p < 0) : npPow 0 p = FVal.inf := by
  simp [npPow, hp.ne, not_lt.mpr hp.le]

theorem npPow_of_pos (x p : ℝ) (hp : p ≠ 0) (hx : 0 < x) : npPow x p = FVal.num (x ^ p) := by
  simp [npPow, hp, hx.ne', not_lt.mpr hx.le]

theorem npPow_of_exp_zero (x p : ℝ) (hp : p = 0) : npPow x p = FVal.num 1 := by
  simp [npPow, hp]

theorem npsign_of_pos (x : ℝ) (hx : 0 < x) : npsign x = 1 := by simp [npsign, hx]

theorem npsign_of_neg (x : ℝ) (hx : x < 0) : npsign x = -1 := by
  simp [npsign, hx, not_lt.mpr hx.le]

theorem npsign_zero : npsign 0 = 0 := by simp [npsign]

theorem alpha_eV : (if "eV" = "eV" then const.e else 1.0) = const.e := if_pos rfl

/-! ### Evaluation of the DOS kernel case by case -/

theorem dos1_of_neg (x m : ℝ) (hx : x < 0) : _dos_single_subband x m 1 "eV" = 0 := by
  have hxe : x * const.e < 0 := mul_neg_of_neg_of_pos hx const_e_pos
  have hp : (((1:ℕ):ℝ) - 2) / 2 ≠ 0 := by norm_num
  unfold _dos_single_subband dosRaw
  dsimp only
  rw [alpha_eV, npPow_eq_nan_of_neg _ _ hp hxe]
  simp [FVal.mul, nan_to_num]

theorem dos2_of_neg (x m : ℝ) (hx : x < 0) : _dos_single_subband x m 2 "eV" = 0 := by
  have hp : (((2:ℕ):ℝ) - 2) / 2 = 0 := by norm_num
  unfold _dos_single_subband dosRaw
  dsimp only
  rw [alpha_eV, npPow_of_exp_zero _ _ hp, npsign_of_neg _ hx]
  simp [FVal.mul, nan_to_num]
  norm_num

theorem dos3_of_neg (x m : ℝ) (hx : x < 0) : _dos_single_subband x m 3 "eV" = 0 := by
  have hxe : x * const.e < 0 := mul_neg_of_neg_of_pos hx const_e_pos
  have hp : (((3:ℕ):ℝ) - 2) / 2 ≠ 0 := by norm_num
  unfold _dos_single_subband dosRaw
  dsimp only
  rw [alpha_eV, npPow_eq_nan_of_neg _ _ hp hxe]
  simp [FVal.mul, nan_to_num]

theorem dosRaw1_at_zero (m : ℝ) (hm : 0 < m) : dosRaw 0 m 1 "eV" = FVal.inf := by
  have hp : (((1:ℕ):ℝ) - 2) / 2 < 0 := by norm_num
  have hb : (0:ℝ) < 2 * m / const.h / const.h :=
    div_pos (div_pos (by linarith) const_h_pos) const_h_pos
  have hB := Real.rpow_pos_of_pos hb (((1:ℕ):ℝ) / 2)
  have hAB : (0:ℝ) < 2 / (2 * Real.pi) ^ (1:ℕ) * (2 * m / const.h / const.h) ^ (((1:ℕ):ℝ) / 2) := by
    have := Real.pi_pos
    positivity
  unfold dosRaw
  dsimp only
  rw [alpha_eV,
    show (if (1:ℕ) = 1 then (2:ℝ) else if (1:ℕ) = 2 then 2 * Real.pi else 4 * Real.pi) = 2
      from rfl]
  rw [show ((0:ℝ) * const.e) = 0 by ring, npPow_zero_of_neg _ hp, npsign_zero]
  simp only [FVal.mul]
  rw [if_pos hAB]
  norm_num

theorem dosRaw2_at_zero (m : ℝ) :
    dosRaw 0 m 2 "eV" =
      FVal.num (2 * Real.pi / (2 * Real.pi) ^ (2:ℕ) *
        (2 * m / const.h / const.h) ^ (((2:ℕ):ℝ) / 2) * 1 * (0 + 1.0) * 0.5) := by
  have hp : (((2:ℕ):ℝ) - 2) / 2 = 0 := by norm_num
  unfold dosRaw
  dsimp only
  rw [alpha_eV, npPow_of_exp_zero _ _ hp, npsign_zero]
  simp [FVal.mul]

theorem dosRaw3_at_zero (m : ℝ) :
    dosRaw 0 m 3 "eV" =
      FVal.num (4 * Real.pi / (2 * Real.pi) ^ (3:ℕ) *
        (2 * m / const.h / const.h) ^ (((3:ℕ):ℝ) / 2) * 0 * (0 + 1.0) * 0.5) := by
  have hp : (0:ℝ) < (((3:ℕ):ℝ) - 2) / 2 := by norm_num
  unfold dosRaw
  dsimp only
  rw [alpha_eV, show ((0:ℝ) * const.e) = 0 by ring, npPow_zero_of_pos _ hp, npsign_zero]
  simp [FVal.mul]

theorem dos3_of_pos (x m : ℝ) (hx : 0 < x) :
    _dos_single_subband x m 3 "eV" =
      4 * Real.pi / (2 * Real.pi) ^ (3:ℕ) *
        (2 * m / const.h / const.h) ^ (((3:ℕ):ℝ) / 2) *
        (x * const.e) ^ ((((3:ℕ):ℝ) - 2) / 2) * (1 + 1.0) * 0.5 := by
  have hxe : 0 < x * const.e := mul_pos hx const_e_pos
  have hp : (((3:ℕ):ℝ) - 2) / 2 ≠ 0 := by norm_num
  unfold _dos_single_subband dosRaw
  dsimp only
  rw [alpha_eV, npPow_of_pos _ _ hp hxe, npsign_of_pos _ hx]
  simp [FVal.mul, nan_to_num]

theorem dos3_at_zero (m : ℝ) : _dos_single_subband 0 m 3 "eV" = 0 := by
  unfold _dos_single_subband
  rw [dosRaw3_at_zero]
  simp [nan_to_num]

theorem dos3_pos (x m : ℝ) (hm : 0 < m) (hx : 0 < x) : 0 < _dos_single_subband x m 3 "eV" := by
  rw [dos3_of_pos x m hx]
  have hb : (0:ℝ) < 2 * m / const.h / const.h :=
    div_pos (div_pos (by linarith) const_h_pos) const_h_pos
  have hB := Real.rpow_pos_of_pos hb (((3:ℕ):ℝ) / 2)
  have hxe : 0 < x * const.e := mul_pos hx const_e_pos
  have hC := Real.rpow_pos_of_pos hxe ((((3:ℕ):ℝ) - 2) / 2)
  have := Real.pi_pos
  positivity

theorem dos3_nonneg (x m : ℝ) (hm : 0 < m) : 0 ≤ _dos_single_subband x m 3 "eV" := by
  rcases lt_trichotomy x 0 with hx | hx | hx
  · rw [dos3_of_neg x m hx]
  · rw [hx, dos3_at_zero]
  · exact (dos3_pos x m hm hx).le

/-- Claim C5: for every dimension d in {1,2,3} and every effective mass m > 0,
the DOS kernel returns exactly 0 at every strictly negative energy, and at
energy exactly 0 the value before `np.nan_to_num` is not NaN (so the returned
value is an ordinary finite real, never a propagated NaN). -/
theorem C5_dos_kernel_negative_zero_and_finite_at_zero (dim : ℕ) (m : ℝ)
    (hd : dim = 1 ∨ dim = 2 ∨ dim = 3) (hm : 0 < m) :
    (∀ x : ℝ, x < 0 → _dos_single_subband x m dim "eV" = 0) ∧
    dosRaw 0 m dim "eV" ≠ FVal.nan := by
  rcases hd with rfl | rfl | rfl
  · refine ⟨fun x hx => dos1_of_neg x m hx, ?_⟩
    rw [dosRaw1_at_zero m hm]
    simp
  · refine ⟨fun x hx => dos2_of_neg x m hx, ?_⟩
    rw [dosRaw2_at_zero m]
    simp
  · refine ⟨fun x hx => dos3_of_neg x m hx, ?_⟩
    rw [dosRaw3_at_zero m]
    simp

/-- Witness for C5 at the concrete input dim = 2, m = 1, x = -1. -/
theorem C5_witness :
    _dos_single_subband (-1) 1 2 "eV" = 0 ∧ dosRaw 0 1 2 "eV" ≠ FVal.nan :=
  ⟨(C5_dos_kernel_negative_zero_and_finite_at_zero 2 1 (by norm_num) (by norm_num)).1
      (-1) (by norm_num),
   (C5_dos_kernel_negative_zero_and_finite_at_zero 2 1 (by norm_num) (by norm_num)).2⟩

/-! ### Structural claims about the band-structure model -/

/-- Claim C7: at construction the conduction edge energies are offset by the
material's band gap, so a single-subband bulk model built with conduction edge
0 and valence edge 0 has `conduction_energy(0, k=0) = material.gap` and
`valence_energy(0, k=0) = 0`. -/
theorem C7_gap_offset_round_trip (mat : Material) (ec ev : List ℝ) :
    (BandStructure3D.init mat ec ev).edges_c = ec.map (fun x => x + mat.Eg) ∧
    (BandStructure3D.init mat [0] [0])._cond_band 0 0 = Except.ok mat.Eg ∧
    (BandStructure3D.init mat [0] [0])._val_band 0 0 = Except.ok (some 0) := by
  refine ⟨rfl, ?_, ?_⟩
  · simp [BandStructure3D.init, BandStructure3D._cond_band, BandStructure3D.n_sb_e]
  · simp [BandStructure3D.init, BandStructure3D._val_band, BandStructure3D.n_sb_h]

/-- Claim C6: on the bulk model, a valence subband index strictly greater
than 2 but below the number of declared valence edges yields no ordinary
numeric value — the method falls through every mass branch and hands back
Python's `None` (`Except.ok none` here), never `Except.ok (some x)`. -/
theorem C6_val_band_above_two_no_ordinary_value (mat : Material) (ec ev : List ℝ)
    (j : ℕ) (k : ℝ) (h2 : 2 < j) (hlt : j < (BandStructure3D.init mat ec ev).n_sb_h) :
    (BandStructure3D.init mat ec ev)._val_band j k = Except.ok none ∧
    ∀ x : ℝ, (BandStructure3D.init mat ec ev)._val_band j k ≠ Except.ok (some x) := by
  have hj0 : j ≠ 0 := by omega
  have hj1 : j ≠ 1 := by omega
  have hj2 : j ≠ 2 := by omega
  have hn : ¬ ((BandStructure3D.init mat ec ev).n_sb_h ≤ j) := not_le.mpr hlt
  refine ⟨?_, fun x => ?_⟩
  · simp [BandStructure3D._val_band, hn, hj0, hj1, hj2]
  · simp [BandStructure3D._val_band, hn, hj0, hj1, hj2]

/-- Witness for C6: bulk model with 4 valence edges, index 3. -/
theorem C6_witness :
    (BandStructure3D.init (GaAs 0 TemprDep.varshni) [0] [0, 0, 0, 0])._val_band 3 0 =
      Except.ok none ∧
    ∀ x : ℝ,
      (BandStructure3D.init (GaAs 0 TemprDep.varshni) [0] [0, 0, 0, 0])._val_band 3 0 ≠
        Except.ok (some x) :=
  C6_val_band_above_two_no_ordinary_value (GaAs 0 TemprDep.varshni) [0] [0, 0, 0, 0] 3 0
    (by norm_num) (by norm_num [BandStructure3D.init, BandStructure3D.n_sb_h])

/-- Claim C9: `density_of_states` with any carrier-type selector other than
`"electrons"` computes the holes path, and the selector dispatch itself never
raises: the result is always exactly the electrons-path value or the
holes-path value. -/
theorem C9_dos_selector_fallback (bs : BandStructure3D) (energy : List ℝ) (s : String) :
    (s ≠ "electrons" → bs.dos energy s = bs.dosHoles energy) ∧
    (bs.dos energy s = Except.ok (bs.dosElectrons energy) ∨
      bs.dos energy s = bs.dosHoles energy) := by
  unfold BandStructure3D.dos
  by_cases h : s = "electrons" <;> simp [h]

/-- A concrete single-subband bulk GaAs model shared by several witnesses. -/
def bsEx : BandStructure3D := BandStructure3D.init (GaAs 0 TemprDep.varshni) [0] [0]

/-- Witness for C9 at the concrete selector `"holes"`. -/
theorem C9_witness : bsEx.dos [0] "holes" = bsEx.dosHoles [0] :=
  (C9_dos_selector_fallback bsEx [0] "holes").1 (by decide)

/-- Quantum-well model with one conduction edge and two valence edges. -/
def qwEx : BandStructureQW := BandStructureQW.init (Tc 2) [0] [0, 0]

/-- Claim C2 (refuted by the code): the quantum-well `_val_band` guards its
index against `n_sb_e`, the number of conduction edges, not against the number
of valence edges as the bulk variant does.  On a model with 1 conduction edge
and 2 valence edges, index 1 (legal by the claimed contract) raises the
band-index `ValueError`. -/
theorem C2_qw_val_band_checks_conduction_count :
    qwEx._val_band 1 0 = Except.error bandIndexErr ∧
    1 < qwEx.n_sb_h ∧ qwEx.n_sb_e = 1 := by
  refine ⟨?_, ?_, ?_⟩
  · simp [qwEx, BandStructureQW.init, BandStructureQW._val_band, BandStructureQW.n_sb_e]
  · norm_num [qwEx, BandStructureQW.init, BandStructureQW.n_sb_h]
  · simp [qwEx, BandStructureQW.init, BandStructureQW.n_sb_e]

/-- Claim C8: the bulk dipole equals `p * gap / (E_c(k) - E_v(k))` with
`p = sqrt(e * e_P * ħ² / (2 m0))`, and on the spec's concrete scenario
(GaAs at 0 K, conduction edges `[0, 0.3 e]`, valence edges `[0, -0.1 e]`)
`dipole(0, 0, k=0)` equals `sqrt(e * e_P * ħ/m0 * ħ/2)` exactly. -/
theorem dipole_eval (bs : BandStructure3D) (j1 j2 : ℕ) (k ecv evv : ℝ)
    (hc : bs._cond_band j2 k = Except.ok ecv)
    (hv : bs._val_band j1 k = Except.ok (some evv)) :
    bs._dipole j1 j2 k =
      Except.ok (Real.sqrt (const.e * bs.mat.e_P * const.h / const.m0 * const.h / 2) *
        bs.mat.Eg / (ecv - evv)) := by
  have h1 : ¬ (bs.n_sb_h ≤ j1) := by
    intro h
    unfold BandStructure3D._val_band at hv
    rw [if_pos h] at hv
    exact absurd hv (by simp)
  have h2 : ¬ (bs.n_sb_e ≤ j2) := by
    intro h
    unfold BandStructure3D._cond_band at hc
    rw [if_pos h] at hc
    exact absurd hc (by simp)
  unfold BandStructure3D._dipole
  rw [if_neg h1, if_neg h2]
  simp only [hc, hv]
  rfl

theorem C8_dipole_formula :
    (∀ (mat : Material) (ec ev : List ℝ) (j1 j2 : ℕ) (k ecv evv : ℝ),
      (BandStructure3D.init mat ec ev)._cond_band j2 k = Except.ok ecv →
      (BandStructure3D.init mat ec ev)._val_band j1 k = Except.ok (some evv) →
      (BandStructure3D.init mat ec ev)._dipole j1 j2 k =
        Except.ok (Real.sqrt (const.e * mat.e_P * const.h ^ 2 / (2 * const.m0)) * mat.Eg /
          (ecv - evv))) ∧
    (BandStructure3D.init (GaAs 0 TemprDep.varshni) [0, 0.3 * const.e]
        [0, -0.1 * const.e])._dipole 0 0 0 =
      Except.ok (Real.sqrt (const.e * (GaAs 0 TemprDep.varshni).e_P * const.h / const.m0 *
        const.h / 2)) := by
  constructor
  · intro mat ec ev j1 j2 k ecv evv hc hv
    rw [dipole_eval _ j1 j2 k ecv evv hc hv]
    have hmat : (BandStructure3D.init mat ec ev).mat = mat := rfl
    rw [hmat, show const.e * mat.e_P * const.h / const.m0 * const.h / 2 =
      const.e * mat.e_P * const.h ^ 2 / (2 * const.m0) by ring]
  · have hEg : (GaAs 0 TemprDep.varshni).Eg = 1.519 * const.e := by
      norm_num [GaAs]
    have hEgne : (GaAs 0 TemprDep.varshni).Eg ≠ 0 := by
      rw [hEg]
      norm_num [const.e]
    have hc2 : (BandStructure3D.init (GaAs 0 TemprDep.varshni) [0, 0.3 * const.e]
        [0, -0.1 * const.e])._cond_band 0 0 = Except.ok ((GaAs 0 TemprDep.varshni).Eg) := by
      simp [BandStructure3D.init, BandStructure3D._cond_band, BandStructure3D.n_sb_e]
    have hv2 : (BandStructure3D.init (GaAs 0 TemprDep.varshni) [0, 0.3 * const.e]
        [0, -0.1 * const.e])._val_band 0 0 = Except.ok (some 0) := by
      simp [BandStructure3D.init, BandStructure3D._val_band, BandStructure3D.n_sb_h]
    rw [dipole_eval _ 0 0 0 _ _ hc2 hv2]
    have hmat : (BandStructure3D.init (GaAs 0 TemprDep.varshni) [0, 0.3 * const.e]
        [0, -0.1 * const.e]).mat = GaAs 0 TemprDep.varshni := rfl
    rw [hmat, sub_zero, mul_div_assoc, div_self hEgne, mul_one]

/-- Witness for C8 on a single-subband model at k = 0. -/
theorem C8_witness :
    (BandStructure3D.init (GaAs 0 TemprDep.varshni) [0] [0])._dipole 0 0 0 =
      Except.ok (Real.sqrt (const.e * (GaAs 0 TemprDep.varshni).e_P * const.h ^ 2 /
        (2 * const.m0)) * (GaAs 0 TemprDep.varshni).Eg /
          ((GaAs 0 TemprDep.varshni).Eg - 0)) :=
  (C8_dipole_formula).1 (GaAs 0 TemprDep.varshni) [0] [0] 0 0 0
    ((GaAs 0 TemprDep.varshni).Eg) 0
    (by simp [BandStructure3D.init, BandStructure3D._cond_band, BandStructure3D.n_sb_e])
    (by simp [BandStructure3D.init, BandStructure3D._val_band, BandStructure3D.n_sb_h])

/-- Claim C4: `get_Fermi_levels` memoizes per temperature.  If the temperature
is already cached, the call evaluates the stored interpolants and returns the
cache unchanged (no integration step is run: the result is a function of the
stored entry alone).  On a miss, the freshly built entry is stored at exactly
that temperature and every other temperature's cache slot is untouched. -/
theorem C4_fermi_cache (bs : BandStructure3D) (cache : ℝ → Option FermiEntry) (T d : ℝ) :
    (∀ ent, cache T = some ent →
      bs.get_Fermi_levels cache T d = Except.ok (bs.evalEntry ent d, cache)) ∧
    (cache T = none → ∀ ent, bs.buildEntry T = Except.ok ent →
      bs.get_Fermi_levels cache T d =
        Except.ok (bs.evalEntry ent d, fun t => if t = T then some ent else cache t) ∧
      (fun t => if t = T then some ent else cache t) T = some ent ∧
      ∀ t, t ≠ T → (if t = T then some ent else cache t) = cache t) := by
  constructor
  · intro ent h
    unfold BandStructure3D.get_Fermi_levels
    rw [h]
  · intro h ent hb
    refine ⟨?_, by simp, fun t ht => by simp [ht]⟩
    unfold BandStructure3D.get_Fermi_levels
    rw [h, hb]
    rfl

/-- A concrete cache entry for the C4 witness. -/
def entEx : FermiEntry := ⟨[0, 1], [0, 1], [0, 1], [0, 1]⟩

/-- A concrete cache holding `entEx` at temperature 300. -/
def cacheEx : ℝ → Option FermiEntry := fun t => if t = 300 then some entEx else none

/-- Witness for C4: querying a cached temperature reuses the entry and leaves
the cache unchanged. -/
theorem C4_witness :
    bsEx.get_Fermi_levels cacheEx 300 1 = Except.ok (bsEx.evalEntry entEx 1, cacheEx) :=
  (C4_fermi_cache bsEx cacheEx 300 1).1 entEx (by simp [cacheEx])

theorem exceptMapList_ok {α : Type} (f : ℕ → Except String α) (g : ℕ → α) :
    ∀ l : List ℕ, (∀ j ∈ l, f j = Except.ok (g j)) →
      exceptMapList f l = Except.ok (l.map g) := by
  intro l
  induction l with
  | nil => intro _; rfl
  | cons j js ih =>
    intro h
    have hj := h j (List.mem_cons_self j js)
    have hjs := ih (fun a ha => h a (List.mem_cons_of_mem _ ha))
    simp [exceptMapList, hj, hjs]

/-- Claim C10: `mat.mh` is a fixed 3-tuple, so on a bulk model constructed
with more than 3 valence edges (construction itself succeeds and records all
edges), the holes branch of `density_of_states` fails with an out-of-range
tuple lookup, and therefore so does a fresh `get_Fermi_levels` call. -/
theorem C10_more_than_three_valence_edges_fail (mat : Material) (ec ev : List ℝ)
    (h4 : 3 < ev.length) (energy : List ℝ) (cache : ℝ → Option FermiEntry) (T d : ℝ)
    (hc : cache T = none) :
    (BandStructure3D.init mat ec ev).n_sb_h = ev.length ∧
    (BandStructure3D.init mat ec ev).dosHoles energy =
      Except.error "IndexError: tuple index out of range" ∧
    (BandStructure3D.init mat ec ev).get_Fermi_levels cache T d =
      Except.error "IndexError: tuple index out of range" := by
  have hn : (BandStructure3D.init mat ec ev).n_sb_h = ev.length := rfl
  have hpairs : (BandStructure3D.init mat ec ev).holePairs =
      Except.error "IndexError: tuple index out of range" := by
    unfold BandStructure3D.holePairs
    obtain ⟨m, hm⟩ : ∃ m, (BandStructure3D.init mat ec ev).n_sb_h = 4 + m :=
      ⟨(BandStructure3D.init mat ec ev).n_sb_h - 4, by omega⟩
    rw [hm, List.range_add, show List.range 4 = [0, 1, 2, 3] from rfl]
    simp [exceptMapList, Material.mh]
  have hdosH : ∀ en : List ℝ, (BandStructure3D.init mat ec ev).dosHoles en =
      Except.error "IndexError: tuple index out of range" := by
    intro en
    unfold BandStructure3D.dosHoles
    rw [hpairs]
    rfl
  refine ⟨hn, hdosH energy, ?_⟩
  have hbuild : (BandStructure3D.init mat ec ev).buildEntry T =
      Except.error "IndexError: tuple index out of range" := by
    unfold BandStructure3D.buildEntry
    rw [show (BandStructure3D.init mat ec ev).dos
        (BandStructure3D.init mat ec ev).elecEnergyGrid "electrons" =
        Except.ok ((BandStructure3D.init mat ec ev).dosElectrons
          (BandStructure3D.init mat ec ev).elecEnergyGrid) from rfl]
    rw [show (BandStructure3D.init mat ec ev).dos
        (BandStructure3D.init mat ec ev).holesEnergyGrid "holes" =
        (BandStructure3D.init mat ec ev).dosHoles
          (BandStructure3D.init mat ec ev).holesEnergyGrid from rfl]
    rw [hdosH]
    rfl
  unfold BandStructure3D.get_Fermi_levels
  rw [hc, hbuild]
  rfl

/-- Witness for C10: a bulk model with 4 valence edges. -/
theorem C10_witness :
    (BandStructure3D.init (GaAs 0 TemprDep.varshni) [0] [0, 0, 0, 0]).n_sb_h = 4 ∧
    (BandStructure3D.init (GaAs 0 TemprDep.varshni) [0] [0, 0, 0, 0]).dosHoles [0] =
      Except.error "IndexError: tuple index out of range" ∧
    (BandStructure3D.init (GaAs 0 TemprDep.varshni) [0] [0, 0, 0, 0]).get_Fermi_levels
        (fun _ => none) 300 1 =
      Except.error "IndexError: tuple index out of range" :=
  C10_more_than_three_valence_edges_fail (GaAs 0 TemprDep.varshni) [0] [0, 0, 0, 0]
    (by norm_num) [0] (fun _ => none) 300 1 rfl

theorem linspace_length (a b : ℝ) (n : ℕ) : (linspace a b n).length = n := by
  rw [linspace, List.length_map, List.length_range]

/-- The `(edge, mass)` pairs the holes DOS loop visits, when all lookups are in
range. -/
def holePairsList (bs : BandStructure3D) : List (ℝ × ℝ) :=
  (List.range bs.n_sb_h).map (fun j => (bs.edges_v.getD j 0, bs.mat.mh.getD j 0))

theorem holePairs_ok (bs : BandStructure3D) (h : bs.n_sb_h ≤ 3) :
    bs.holePairs = Except.ok (holePairsList bs) := by
  unfold BandStructure3D.holePairs holePairsList
  apply exceptMapList_ok
  intro j hj
  have hj3 : j < 3 := by
    have := List.mem_range.mp hj
    omega
  interval_cases j <;> rfl

theorem dosHoles_ok (bs : BandStructure3D) (h : bs.n_sb_h ≤ 3) (energy : List ℝ) :
    bs.dosHoles energy = Except.ok (energy.map (fun en =>
      ((holePairsList bs).map
        (fun pr => _dos_single_subband (en + pr.1 / const.e) pr.2 bs.dim "eV")).sum)) := by
  unfold BandStructure3D.dosHoles
  rw [holePairs_ok bs h]
  rfl

/-- The holes DOS samples on the holes integration grid (all lookups in
range). -/
def dosHolesVals (bs : BandStructure3D) : List ℝ :=
  bs.holesEnergyGrid.map (fun en =>
    ((holePairsList bs).map
      (fun pr => _dos_single_subband (en + pr.1 / const.e) pr.2 bs.dim "eV")).sum)

/-- The entry `get_Fermi_levels` builds and caches for a fresh temperature. -/
def builtEntry (bs : BandStructure3D) (T : ℝ) : FermiEntry :=
  { elecX := bs.elecProbe.map (fun ef =>
      concSample bs.elecEnergyGrid (bs.dosElectrons bs.elecEnergyGrid) T ef)
    elecY := bs.elecProbe
    holesX := bs.holesProbe.map (fun ef => concSample bs.holesEnergyGrid (dosHolesVals bs) T ef)
    holesY := bs.holesProbe }

theorem buildEntry_ok (bs : BandStructure3D) (h : bs.n_sb_h ≤ 3) (T : ℝ) :
    bs.buildEntry T = Except.ok (builtEntry bs T) := by
  unfold BandStructure3D.buildEntry
  rw [show bs.dos bs.elecEnergyGrid "electrons" =
      Except.ok (bs.dosElectrons bs.elecEnergyGrid) from rfl]
  rw [show bs.dos bs.holesEnergyGrid "holes" = bs.dosHoles bs.holesEnergyGrid from rfl]
  rw [dosHoles_ok bs h]
  rfl

/-- Claim C1: on the first call at a temperature, `get_Fermi_levels` samples
exactly 50 electron candidate Fermi energies linearly spaced from half the
(temperature-corrected) gap to the minimum conduction edge + 1.5 eV,
integrating Fermi-Dirac occupation times the electron DOS on a 3000-point grid
from the conduction edge − 0.5 eV to + 5 eV; 550 hole candidates over
[−gap/2, valence-band-top (hole scale) + 1.0 eV] integrated on a 350-point
grid over [valence-band-top, valence-band-top + 10 eV]; and it returns the
pair (hole level, electron level) rescaled to absolute energy units, each
candidate shifted back by its band edge (`np.min` of the signed edges) and
converted from eV via `const.e`. -/
theorem C1_first_call_structure (mat : Material) (ec ev : List ℝ)
    (_hc : ec ≠ []) (_hv : ev ≠ []) (hv3 : ev.length ≤ 3)
    (cache : ℝ → Option FermiEntry) (T d : ℝ) (hfresh : cache T = none) :
    ∃ ent : FermiEntry,
      (BandStructure3D.init mat ec ev).buildEntry T = Except.ok ent ∧
      ent.elecY = linspace (mat.Eg / const.e * 0.5)
        (npMin (BandStructure3D.init mat ec ev).edges_c / const.e + 1.5) 50 ∧
      ent.elecY.length = 50 ∧
      (BandStructure3D.init mat ec ev).elecEnergyGrid =
        linspace (npMin (BandStructure3D.init mat ec ev).edges_c / const.e - 0.5)
          (npMin (BandStructure3D.init mat ec ev).edges_c / const.e + 5) 3000 ∧
      (BandStructure3D.init mat ec ev).elecEnergyGrid.length = 3000 ∧
      ent.elecX = ent.elecY.map (fun ef =>
        concSample (BandStructure3D.init mat ec ev).elecEnergyGrid
          ((BandStructure3D.init mat ec ev).dosElectrons
            (BandStructure3D.init mat ec ev).elecEnergyGrid) T ef) ∧
      ent.holesY = linspace (-(mat.Eg) / const.e * 0.5)
        (npMin (ev.map (fun x => -x)) / const.e + 1.0) 550 ∧
      ent.holesY.length = 550 ∧
      (BandStructure3D.init mat ec ev).holesEnergyGrid =
        linspace (npMin (ev.map (fun x => -x)) / const.e)
          (npMin (ev.map (fun x => -x)) / const.e + 10) 350 ∧
      (BandStructure3D.init mat ec ev).holesEnergyGrid.length = 350 ∧
      (∃ dosH, (BandStructure3D.init mat ec ev).dosHoles
          ((BandStructure3D.init mat ec ev).holesEnergyGrid) = Except.ok dosH ∧
        ent.holesX = ent.holesY.map (fun ef =>
          concSample (BandStructure3D.init mat ec ev).holesEnergyGrid dosH T ef)) ∧
      (BandStructure3D.init mat ec ev).get_Fermi_levels cache T d =
        Except.ok
          (((-(interp1d ent.holesX ent.holesY d) - npMin (ev.map (fun x => -x))) * const.e,
            (interp1d ent.elecX ent.elecY d +
              npMin (BandStructure3D.init mat ec ev).edges_c) * const.e),
           fun t => if t = T then some ent else cache t) := by
  have h3 : (BandStructure3D.init mat ec ev).n_sb_h ≤ 3 := hv3
  refine ⟨builtEntry (BandStructure3D.init mat ec ev) T,
    buildEntry_ok _ h3 T, rfl, by simp [builtEntry, BandStructure3D.elecProbe, linspace_length],
    rfl, by simp [BandStructure3D.elecEnergyGrid, linspace_length], rfl, rfl,
    by simp [builtEntry, BandStructure3D.holesProbe, linspace_length], rfl,
    by simp [BandStructure3D.holesEnergyGrid, linspace_length],
    ⟨dosHolesVals (BandStructure3D.init mat ec ev), dosHoles_ok _ h3 _, rfl⟩, ?_⟩
  unfold BandStructure3D.get_Fermi_levels
  rw [hfresh, buildEntry_ok _ h3 T]
  rfl

/-- Witness for C1 on a concrete single-subband GaAs model. -/
theorem C1_witness :
    ∃ ent : FermiEntry,
      (BandStructure3D.init (GaAs 0 TemprDep.varshni) [0] [0]).buildEntry 300 =
        Except.ok ent ∧
      ent.elecY = linspace ((GaAs 0 TemprDep.varshni).Eg / const.e * 0.5)
        (npMin (BandStructure3D.init (GaAs 0 TemprDep.varshni) [0] [0]).edges_c / const.e +
          1.5) 50 ∧
      ent.elecY.length = 50 ∧
      (BandStructure3D.init (GaAs 0 TemprDep.varshni) [0] [0]).elecEnergyGrid =
        linspace
          (npMin (BandStructure3D.init (GaAs 0 TemprDep.varshni) [0] [0]).edges_c / const.e -
            0.5)
          (npMin (BandStructure3D.init (GaAs 0 TemprDep.varshni) [0] [0]).edges_c / const.e +
            5) 3000 ∧
      (BandStructure3D.init (GaAs 0 TemprDep.varshni) [0] [0]).elecEnergyGrid.length = 3000 ∧
      ent.elecX = ent.elecY.map (fun ef =>
        concSample (BandStructure3D.init (GaAs 0 TemprDep.varshni) [0] [0]).elecEnergyGrid
          ((BandStructure3D.init (GaAs 0 TemprDep.varshni) [0] [0]).dosElectrons
            (BandStructure3D.init (GaAs 0 TemprDep.varshni) [0] [0]).elecEnergyGrid) 300 ef) ∧
      ent.holesY = linspace (-((GaAs 0 TemprDep.varshni).Eg) / const.e * 0.5)
        (npMin (List.map (fun x => -x) [0]) / const.e + 1.0) 550 ∧
      ent.holesY.length = 550 ∧
      (BandStructure3D.init (GaAs 0 TemprDep.varshni) [0] [0]).holesEnergyGrid =
        linspace (npMin (List.map (fun x => -x) [0]) / const.e)
          (npMin (List.map (fun x => -x) [0]) / const.e + 10) 350 ∧
      (BandStructure3D.init (GaAs 0 TemprDep.varshni) [0] [0]).holesEnergyGrid.length = 350 ∧
      (∃ dosH, (BandStructure3D.init (GaAs 0 TemprDep.varshni) [0] [0]).dosHoles
          ((BandStructure3D.init (GaAs 0 TemprDep.varshni) [0] [0]).holesEnergyGrid) =
            Except.ok dosH ∧
        ent.holesX = ent.holesY.map (fun ef =>
          concSample (BandStructure3D.init (GaAs 0 TemprDep.varshni) [0] [0]).holesEnergyGrid
            dosH 300 ef)) ∧
      (BandStructure3D.init (GaAs 0 TemprDep.varshni) [0] [0]).get_Fermi_levels
          (fun _ => none) 300 1 =
        Except.ok
          (((-(interp1d ent.holesX ent.holesY 1) - npMin (List.map (fun x => -x) [0])) *
              const.e,
            (interp1d ent.elecX ent.elecY 1 +
              npMin (BandStructure3D.init (GaAs 0 TemprDep.varshni) [0] [0]).edges_c) *
              const.e),
           fun t => if t = 300 then some ent else none) :=
  C1_first_call_structure (GaAs 0 TemprDep.varshni) [0] [0] (by simp) (by simp)
    (by norm_num) (fun _ => none) 300 1 rfl

/-! ### Monotonicity infrastructure for the Fermi-level solver (claim C3) -/

theorem fd_lt_fd (en T u v : ℝ) (hT : 0 < T) (huv : u < v) : fd en u T < fd en v T := by
  unfold fd
  have hk : (0:ℝ) < 8.61733 / 10 ^ 5 * T := by
    have : (0:ℝ) < 8.61733 / 10 ^ 5 := by norm_num
    exact mul_pos this hT
  have h1 : (en - v) / (8.61733 / 10 ^ 5 * T) < (en - u) / (8.61733 / 10 ^ 5 * T) :=
    div_lt_div_of_pos_right (by linarith) hk
  have h2 := Real.exp_lt_exp.mpr h1
  have h3 : (0:ℝ) < 1.0 + Real.exp ((en - v) / (8.61733 / 10 ^ 5 * T)) := by
    have := Real.exp_pos ((en - v) / (8.61733 / 10 ^ 5 * T))
    linarith
  have h4 : 1.0 + Real.exp ((en - v) / (8.61733 / 10 ^ 5 * T)) <
      1.0 + Real.exp ((en - u) / (8.61733 / 10 ^ 5 * T)) := by linarith
  have h5 := one_div_lt_one_div_of_lt h3 h4
  norm_num at h5 ⊢
  exact h5

theorem fd_le_fd (en T u v : ℝ) (hT : 0 < T) (huv : u ≤ v) : fd en u T ≤ fd en v T := by
  rcases eq_or_lt_of_le huv with rfl | h
  · exact le_refl _
  · exact (fd_lt_fd en T u v hT h).le

theorem trapz_le (y1 : List ℝ) : ∀ (y2 x : List ℝ), List.Forall₂ (· ≤ ·) y1 y2 →
    List.Chain' (· ≤ ·) x → trapz y1 x ≤ trapz y2 x := by
  induction y1 with
  | nil =>
    intro y2 x h _
    cases h
    exact le_refl _
  | cons a1 as1 ih =>
    intro y2 x h hx
    cases h with
    | cons hab htail =>
      rename_i b1 bs1
      cases htail with
      | nil => cases x <;> simp [trapz]
      | cons ha2b2 htail2 =>
        rename_i a2 b2 as2 bs2
        match x with
        | [] => simp [trapz]
        | [x1] => simp [trapz]
        | x1 :: x2 :: xs =>
          have hx12 : x1 ≤ x2 := (List.chain'_cons.mp hx).1
          have hxtail : List.Chain' (· ≤ ·) (x2 :: xs) := (List.chain'_cons.mp hx).2
          show (x2 - x1) * (a1 + a2) / 2 + trapz (a2 :: as2) (x2 :: xs) ≤
               (x2 - x1) * (b1 + b2) / 2 + trapz (b2 :: bs2) (x2 :: xs)
          have hhead : (x2 - x1) * (a1 + a2) / 2 ≤ (x2 - x1) * (b1 + b2) / 2 := by
            have h1 : a1 + a2 ≤ b1 + b2 := add_le_add hab ha2b2
            have h2 : 0 ≤ x2 - x1 := by linarith
            have := mul_le_mul_of_nonneg_left h1 h2
            linarith
          have htl : trapz (a2 :: as2) (x2 :: xs) ≤ trapz (b2 :: bs2) (x2 :: xs) :=
            ih (b2 :: bs2) (x2 :: xs) (List.Forall₂.cons ha2b2 htail2) hxtail
          linarith

theorem trapz_lt (y1 : List ℝ) : ∀ (y2 x : List ℝ), List.Forall₂ (· ≤ ·) y1 y2 →
    List.Chain' (· < ·) x → x.length = y1.length → 2 ≤ y1.length → y1 ≠ y2 →
    trapz y1 x < trapz y2 x := by
  induction y1 with
  | nil =>
    intro y2 x _ _ _ h2 _
    simp at h2
  | cons a1 as1 ih =>
    intro y2 x h hx hlen h2 hne
    cases h with
    | cons hab htail =>
      rename_i b1 bs1
      cases htail with
      | nil => simp at h2
      | cons ha2b2 htail2 =>
        rename_i a2 b2 as2 bs2
        match x, hlen with
        | [], hlen => simp at hlen
        | [x1], hlen => simp at hlen
        | x1 :: x2 :: xs, hlen =>
          have hx12 : x1 < x2 := (List.chain'_cons.mp hx).1
          have hxtail : List.Chain' (· < ·) (x2 :: xs) := (List.chain'_cons.mp hx).2
          show (x2 - x1) * (a1 + a2) / 2 + trapz (a2 :: as2) (x2 :: xs) <
               (x2 - x1) * (b1 + b2) / 2 + trapz (b2 :: bs2) (x2 :: xs)
          by_cases hh : a1 = b1 ∧ a2 = b2
          · obtain ⟨rfl, rfl⟩ := hh
            have hasne : as2 ≠ bs2 := by
              intro hc
              exact hne (by rw [hc])
            have has2ne : as2 ≠ [] := by
              intro hc
              subst hc
              cases htail2
              exact hasne rfl
            have hlen2 : (x2 :: xs).length = (a2 :: as2).length := by
              simpa using hlen
            have h22 : 2 ≤ (a2 :: as2).length := by
              cases as2 with
              | nil => exact absurd rfl has2ne
              | cons _ _ => simp
            have htl : trapz (a2 :: as2) (x2 :: xs) < trapz (a2 :: bs2) (x2 :: xs) :=
              ih (a2 :: bs2) (x2 :: xs) (List.Forall₂.cons ha2b2 htail2) hxtail hlen2 h22
                (by simp [hasne])
            linarith
          · have h1 : a1 + a2 < b1 + b2 := by
              rcases not_and_or.mp hh with h | h
              · have : a1 < b1 := lt_of_le_of_ne hab h
                linarith
              · have : a2 < b2 := lt_of_le_of_ne ha2b2 h
                linarith
            have hhead : (x2 - x1) * (a1 + a2) / 2 < (x2 - x1) * (b1 + b2) / 2 := by
              have hx2 : 0 < x2 - x1 := by linarith
              have := mul_lt_mul_of_pos_left h1 hx2
              linarith
            have htl : trapz (a2 :: as2) (x2 :: xs) ≤ trapz (b2 :: bs2) (x2 :: xs) :=
              trapz_le (a2 :: as2) (b2 :: bs2) (x2 :: xs)
                (List.Forall₂.cons ha2b2 htail2)
                (hxtail.imp (fun _ _ h => h.le))
            linarith

theorem linspace_get (a b : ℝ) (n i : ℕ) (hi : i < n) :
    (linspace a b n).get ⟨i, by rw [linspace_length]; exact hi⟩ =
      a + (b - a) * (i : ℝ) / ((n : ℝ) - 1) := by
  simp [linspace]

theorem linspace_last (a b : ℝ) (n : ℕ) (h2 : 2 ≤ n) :
    (linspace a b n).get ⟨n - 1, by rw [linspace_length]; omega⟩ = b := by
  rw [linspace_get a b n (n - 1) (by omega)]
  have hd : ((n : ℝ) - 1) ≠ 0 := by
    have : (2 : ℝ) ≤ (n : ℝ) := by exact_mod_cast h2
    linarith
  have hcast : (((n - 1 : ℕ)) : ℝ) = (n : ℝ) - 1 := by
    have h1 : 1 ≤ n := by omega
    push_cast [Nat.cast_sub h1]
    ring
  rw [hcast, mul_div_assoc, div_self hd, mul_one]
  ring

theorem linspace_chain_lt (a b : ℝ) (hab : a < b) (n : ℕ) :
    List.Chain' (· < ·) (linspace a b n) := by
  rw [List.chain'_iff_get]
  intro i hi
  rw [linspace_length] at hi
  have hi1 : i < n := by omega
  have hi2 : i + 1 < n := by omega
  rw [linspace_get a b n i hi1, linspace_get a b n (i + 1) hi2]
  have hd : (0 : ℝ) < (n : ℝ) - 1 := by
    have : (2 : ℝ) ≤ (n : ℝ) := by
      have : 2 ≤ n := by omega
      exact_mod_cast this
    linarith
  have hnum : (b - a) * (i : ℝ) < (b - a) * ((i : ℕ) + 1 : ℝ) := by
    have hba : 0 < b - a := by linarith
    have : (i : ℝ) < (i : ℝ) + 1 := by linarith
    exact mul_lt_mul_of_pos_left this hba
  have := div_lt_div_of_pos_right hnum hd
  push_cast
  push_cast at this
  linarith

theorem foldr_min_mem (l : List ℝ) : ∀ b : ℝ, List.foldr min b l = b ∨ List.foldr min b l ∈ l := by
  induction l with
  | nil => intro b; left; rfl
  | cons c cs ih =>
    intro b
    rcases min_choice c (List.foldr min b cs) with h | h
    · right
      rw [List.foldr_cons, h]
      exact List.mem_cons_self _ _
    · rw [List.foldr_cons, h]
      rcases ih b with h2 | h2
      · left; exact h2
      · right; exact List.mem_cons_of_mem _ h2

theorem npMin_mem (l : List ℝ) (h : l ≠ []) : npMin l ∈ l := by
  match l with
  | a :: as =>
    rcases foldr_min_mem (a :: as) ((a :: as).headD 0) with h2 | h2
    · unfold npMin
      rw [h2]
      simp
    · exact h2

theorem list_sum_pos_of_mem (l : List ℝ) (hnn : ∀ x ∈ l, 0 ≤ x) (x : ℝ) (hx : x ∈ l)
    (hxpos : 0 < x) : 0 < l.sum := by
  induction l with
  | nil => simp at hx
  | cons a as ih =>
    rw [List.sum_cons]
    rcases List.mem_cons.mp hx with rfl | h
    · have : 0 ≤ as.sum := List.sum_nonneg (fun y hy => hnn y (List.mem_cons_of_mem _ hy))
      linarith
    · have ha : 0 ≤ a := hnn a (List.mem_cons_self _ _)
      have := ih (fun y hy => hnn y (List.mem_cons_of_mem _ hy)) h
      linarith

theorem forall₂_zipWith_mul (f g : ℝ → ℝ) (hfg : ∀ x, f x ≤ g x) :
    ∀ (l1 l2 : List ℝ), (∀ d ∈ l2, 0 ≤ d) →
      List.Forall₂ (· ≤ ·) (List.zipWith (fun en dv => f en * dv) l1 l2)
        (List.zipWith (fun en dv => g en * dv) l1 l2) := by
  intro l1
  induction l1 with
  | nil =>
    intro l2 _
    simp
  | cons a as ih =>
    intro l2 h2
    cases l2 with
    | nil => simp
    | cons d ds =>
      simp only [List.zipWith_cons_cons]
      exact List.Forall₂.cons
        (mul_le_mul_of_nonneg_right (hfg a) (h2 d (List.mem_cons_self _ _)))
        (ih ds (fun y hy => h2 y (List.mem_cons_of_mem _ hy)))

theorem concSample_strictMono (energy dosVals : List ℝ) (T : ℝ) (hT : 0 < T)
    (hchain : List.Chain' (· < ·) energy) (hlen : dosVals.length = energy.length)
    (h2 : 2 ≤ energy.length) (hnn : ∀ d ∈ dosVals, 0 ≤ d)
    (i : ℕ) (hi : i < dosVals.length) (hipos : 0 < dosVals.get ⟨i, hi⟩) :
    StrictMono (fun ef => concSample energy dosVals T ef) := by
  intro u v huv
  unfold concSample
  have hxchain : List.Chain' (· < ·) (energy.map (fun en => en * const.e)) := by
    rw [List.chain'_map]
    exact hchain.imp (fun _ _ h => mul_lt_mul_of_pos_right h const_e_pos)
  have hylen : (List.zipWith (fun en dv => fd en u T * dv) energy dosVals).length =
      energy.length := by
    rw [List.length_zipWith, hlen, min_self]
  apply trapz_lt
  · exact forall₂_zipWith_mul (fun en => fd en u T) (fun en => fd en v T)
      (fun en => (fd_lt_fd en T u v hT huv).le) energy dosVals hnn
  · exact hxchain
  · rw [List.length_map, hylen]
  · rw [hylen]; exact h2
  · intro hcontra
    have hie : i < energy.length := hlen ▸ hi
    have hval := congrArg (fun l : List ℝ => l.getD i 0) hcontra
    have hgu : (List.zipWith (fun en dv => fd en u T * dv) energy dosVals).getD i 0 =
        fd (energy.get ⟨i, hie⟩) u T * dosVals.get ⟨i, hi⟩ := by
      rw [List.getD_eq_getElem _ 0 (show i <
        (List.zipWith (fun en dv => fd en u T * dv) energy dosVals).length by
          rw [hylen]; exact hie)]
      simp [List.get_eq_getElem]
    have hgv : (List.zipWith (fun en dv => fd en v T * dv) energy dosVals).getD i 0 =
        fd (energy.get ⟨i, hie⟩) v T * dosVals.get ⟨i, hi⟩ := by
      rw [List.getD_eq_getElem _ 0 (show i <
        (List.zipWith (fun en dv => fd en v T * dv) energy dosVals).length by
          rw [List.length_zipWith, hlen, min_self]; exact hie)]
      simp [List.get_eq_getElem]
    have heq : fd (energy.get ⟨i, hie⟩) u T * dosVals.get ⟨i, hi⟩ =
        fd (energy.get ⟨i, hie⟩) v T * dosVals.get ⟨i, hi⟩ := by
      dsimp only at hval
      rw [← hgu, hval, hgv]
    have hlt : fd (energy.get ⟨i, hie⟩) u T * dosVals.get ⟨i, hi⟩ <
        fd (energy.get ⟨i, hie⟩) v T * dosVals.get ⟨i, hi⟩ :=
      mul_lt_mul_of_pos_right (fd_lt_fd _ T u v hT huv) hipos
    exact absurd heq (ne_of_lt hlt)

/-- Sorted interpolation nodes whose ordinates follow the abscissas (with ties
forcing equal ordinates). -/
def goodChain (l : List (ℝ × ℝ)) : Prop :=
  List.Chain' (fun p q : ℝ × ℝ => p.1 ≤ q.1 ∧ p.2 ≤ q.2 ∧ (p.1 = q.1 → p.2 = q.2)) l

theorem seg_value_mono (p q : ℝ × ℝ) (h1 : p.1 ≤ q.1) (h2 : p.2 ≤ q.2)
    (h3 : p.1 = q.1 → p.2 = q.2) (x1 x2 : ℝ) (hx : x1 ≤ x2) :
    p.2 + (q.2 - p.2) * (x1 - p.1) / (q.1 - p.1) ≤
      p.2 + (q.2 - p.2) * (x2 - p.1) / (q.1 - p.1) := by
  rcases eq_or_lt_of_le h1 with heq | hlt
  · rw [h3 heq]
    simp
  · have hd : (0:ℝ) < q.1 - p.1 := by linarith
    have hs : (0:ℝ) ≤ q.2 - p.2 := by linarith
    have hmul : (q.2 - p.2) * (x1 - p.1) ≤ (q.2 - p.2) * (x2 - p.1) :=
      mul_le_mul_of_nonneg_left (by linarith) hs
    have hdiv := (div_le_div_iff_of_pos_right hd).mpr hmul
    linarith

theorem seg_value_at_right (p q : ℝ × ℝ) (h1 : p.1 ≤ q.1) (h3 : p.1 = q.1 → p.2 = q.2) :
    p.2 + (q.2 - p.2) * (q.1 - p.1) / (q.1 - p.1) = q.2 := by
  rcases eq_or_lt_of_le h1 with heq | hlt
  · rw [h3 heq]
    simp
  · rw [mul_div_assoc, div_self (ne_of_gt (by linarith : (0:ℝ) < q.1 - p.1))]
    ring

theorem seg_value_lb (p q : ℝ × ℝ) (h1 : p.1 ≤ q.1) (h2 : p.2 ≤ q.2)
    (h3 : p.1 = q.1 → p.2 = q.2) (x : ℝ) (hx : p.1 ≤ x) :
    p.2 ≤ p.2 + (q.2 - p.2) * (x - p.1) / (q.1 - p.1) := by
  have := seg_value_mono p q h1 h2 h3 p.1 x hx
  simpa using this

theorem interpSorted_lb : ∀ (l : List (ℝ × ℝ)) (p : ℝ × ℝ), goodChain (p :: l) →
    ∀ x, p.1 ≤ x → p.2 ≤ interpSorted (p :: l) x := by
  intro l
  induction l with
  | nil =>
    intro p _ x _
    simp [interpSorted]
  | cons q l' ih =>
    intro p hg x hx
    have hpq := (List.chain'_cons.mp hg).1
    have hg' : goodChain (q :: l') := (List.chain'_cons.mp hg).2
    obtain ⟨h1, h2, h3⟩ := hpq
    cases l' with
    | nil =>
      simp only [interpSorted]
      exact seg_value_lb p q h1 h2 h3 x hx
    | cons r l'' =>
      simp only [interpSorted]
      split_ifs with hq
      · exact seg_value_lb p q h1 h2 h3 x hx
      · exact le_trans h2 (ih q hg' x (le_of_lt (not_le.mp hq)))

theorem interpSorted_mono : ∀ (l : List (ℝ × ℝ)), goodChain l →
    ∀ x1 x2 : ℝ, x1 ≤ x2 → interpSorted l x1 ≤ interpSorted l x2 := by
  intro l
  induction l with
  | nil =>
    intro _ x1 x2 _
    simp [interpSorted]
  | cons p tail ih =>
    intro hg x1 x2 hx
    cases tail with
    | nil => simp [interpSorted]
    | cons q tail2 =>
      have hpq := (List.chain'_cons.mp hg).1
      have hg' : goodChain (q :: tail2) := (List.chain'_cons.mp hg).2
      obtain ⟨h1, h2, h3⟩ := hpq
      cases tail2 with
      | nil =>
        simp only [interpSorted]
        exact seg_value_mono p q h1 h2 h3 x1 x2 hx
      | cons r tail3 =>
        simp only [interpSorted]
        split_ifs with hq1 hq2 hq3
        · exact seg_value_mono p q h1 h2 h3 x1 x2 hx
        · have hval1 : p.2 + (q.2 - p.2) * (x1 - p.1) / (q.1 - p.1) ≤ q.2 := by
            have hm := seg_value_mono p q h1 h2 h3 x1 q.1 hq1
            rw [seg_value_at_right p q h1 h3] at hm
            exact hm
          have hlb : q.2 ≤ interpSorted (q :: r :: tail3) x2 :=
            interpSorted_lb (r :: tail3) q hg' x2 (le_of_lt (not_le.mp hq2))
          linarith
        · exact absurd (le_trans hx hq3) hq1
        · exact ih hg' x1 x2 hx

theorem goodChain_sortPairs (l : List (ℝ × ℝ))
    (hco : ∀ p ∈ l, ∀ q ∈ l, p.1 ≤ q.1 → p.2 ≤ q.2) : goodChain (sortPairs l) := by
  have hperm : List.Perm (sortPairs l) l := List.perm_insertionSort pairLE l
  have hsorted : List.Sorted pairLE (sortPairs l) := List.sorted_insertionSort pairLE l
  have hp : List.Pairwise (fun p q : ℝ × ℝ =>
      p.1 ≤ q.1 ∧ p.2 ≤ q.2 ∧ (p.1 = q.1 → p.2 = q.2)) (sortPairs l) := by
    refine List.Pairwise.imp_of_mem ?_ hsorted
    intro p q hpmem hqmem hle
    have hpl : p ∈ l := hperm.mem_iff.mp hpmem
    have hql : q ∈ l := hperm.mem_iff.mp hqmem
    refine ⟨hle, hco p hpl q hql hle, fun heq => ?_⟩
    have hA := hco p hpl q hql (le_of_eq heq)
    have hB := hco q hql p hpl (le_of_eq heq.symm)
    linarith
  exact hp.chain'

theorem mem_zip_map_graph (F : ℝ → ℝ) : ∀ (l : List ℝ) (p : ℝ × ℝ),
    p ∈ (l.map F).zip l → ∃ u ∈ l, p = (F u, u) := by
  intro l
  induction l with
  | nil =>
    intro p hp
    simp at hp
  | cons a as ih =>
    intro p hp
    rw [List.map_cons, List.zip_cons_cons] at hp
    rcases List.mem_cons.mp hp with rfl | h
    · exact ⟨a, List.mem_cons_self _ _, rfl⟩
    · obtain ⟨u, hu, hpu⟩ := ih p h
      exact ⟨u, List.mem_cons_of_mem _ hu, hpu⟩

theorem interp1d_graph_mono (F : ℝ → ℝ) (hF : StrictMono F) (probe : List ℝ)
    (d1 d2 : ℝ) (hd : d1 ≤ d2) :
    interp1d (probe.map F) probe d1 ≤ interp1d (probe.map F) probe d2 := by
  unfold interp1d
  apply interpSorted_mono
  · apply goodChain_sortPairs
    intro p hp q hq hle
    obtain ⟨u, _, rfl⟩ := mem_zip_map_graph F probe p hp
    obtain ⟨v, _, rfl⟩ := mem_zip_map_graph F probe q hq
    exact hF.le_iff_le.mp hle
  · exact hd

/-! ### Positivity of the sampled DOS on the integration grids -/

theorem dosElectrons_mem_nonneg (bs : BandStructure3D) (hdim : bs.dim = 3)
    (hme : 0 < bs.mat.me) (energy : List ℝ) :
    ∀ dd ∈ bs.dosElectrons energy, 0 ≤ dd := by
  intro dd hdd
  unfold BandStructure3D.dosElectrons at hdd
  obtain ⟨en, _, rfl⟩ := List.mem_map.mp hdd
  apply List.sum_nonneg
  intro y hy
  obtain ⟨ecj, _, rfl⟩ := List.mem_map.mp hy
  rw [hdim]
  exact dos3_nonneg _ _ hme

theorem dosElectrons_get (bs : BandStructure3D) (energy : List ℝ) (i : ℕ)
    (hi : i < energy.length) :
    (bs.dosElectrons energy).get
        ⟨i, by unfold BandStructure3D.dosElectrons; rw [List.length_map]; exact hi⟩ =
      (bs.edges_c.map (fun ecj =>
        _dos_single_subband (energy.get ⟨i, hi⟩ - ecj / const.e) bs.mat.me bs.dim "eV")).sum := by
  unfold BandStructure3D.dosElectrons
  simp [List.get_eq_getElem]

theorem elec_sum_pos (bs : BandStructure3D) (hdim : bs.dim = 3) (hme : 0 < bs.mat.me)
    (hne : bs.edges_c ≠ []) (en : ℝ) (hen : npMin bs.edges_c / const.e < en) :
    0 < (bs.edges_c.map (fun ecj =>
      _dos_single_subband (en - ecj / const.e) bs.mat.me bs.dim "eV")).sum := by
  apply list_sum_pos_of_mem _
    (fun y hy => by
      obtain ⟨ecj, _, rfl⟩ := List.mem_map.mp hy
      rw [hdim]
      exact dos3_nonneg _ _ hme)
    (_dos_single_subband (en - npMin bs.edges_c / const.e) bs.mat.me bs.dim "eV")
    (List.mem_map_of_mem
      (fun ecj => _dos_single_subband (en - ecj / const.e) bs.mat.me bs.dim "eV")
      (npMin_mem _ hne))
  rw [hdim]
  exact dos3_pos _ _ hme (by linarith)

theorem holePairsList_mass_pos (bs : BandStructure3D) (h3 : bs.n_sb_h ≤ 3)
    (hmhh : 0 < bs.mat.mhh) (hmlh : 0 < bs.mat.mlh) (hmso : 0 < bs.mat.mso) :
    ∀ pr ∈ holePairsList bs, 0 < pr.2 := by
  intro pr hpr
  unfold holePairsList at hpr
  obtain ⟨j, hj, rfl⟩ := List.mem_map.mp hpr
  have hj3 : j < 3 := by
    have := List.mem_range.mp hj
    omega
  interval_cases j
  · exact hmhh
  · exact hmlh
  · exact hmso

theorem dosHolesVals_nonneg (bs : BandStructure3D) (hdim : bs.dim = 3) (h3 : bs.n_sb_h ≤ 3)
    (hmhh : 0 < bs.mat.mhh) (hmlh : 0 < bs.mat.mlh) (hmso : 0 < bs.mat.mso) :
    ∀ dd ∈ dosHolesVals bs, 0 ≤ dd := by
  intro dd hdd
  unfold dosHolesVals at hdd
  obtain ⟨en, _, rfl⟩ := List.mem_map.mp hdd
  apply List.sum_nonneg
  intro y hy
  obtain ⟨pr, hpr, rfl⟩ := List.mem_map.mp hy
  rw [hdim]
  exact dos3_nonneg _ _ (holePairsList_mass_pos bs h3 hmhh hmlh hmso pr hpr)

theorem dosHolesVals_get (bs : BandStructure3D) (i : ℕ)
    (hi : i < bs.holesEnergyGrid.length) :
    (dosHolesVals bs).get
        ⟨i, by unfold dosHolesVals; rw [List.length_map]; exact hi⟩ =
      ((holePairsList bs).map (fun pr =>
        _dos_single_subband (bs.holesEnergyGrid.get ⟨i, hi⟩ + pr.1 / const.e) pr.2
          bs.dim "eV")).sum := by
  unfold dosHolesVals
  simp [List.get_eq_getElem]

theorem hole_sum_pos (bs : BandStructure3D) (hdim : bs.dim = 3) (h3 : bs.n_sb_h ≤ 3)
    (hvne : bs.edges_v ≠ []) (hmhh : 0 < bs.mat.mhh) (hmlh : 0 < bs.mat.mlh)
    (hmso : 0 < bs.mat.mso) :
    0 < ((holePairsList bs).map (fun pr =>
      _dos_single_subband ((bs.vbt + 10) + pr.1 / const.e) pr.2 bs.dim "eV")).sum := by
  have hmapne : bs.edges_v.map (fun x => -x) ≠ [] := by
    simp [hvne]
  obtain ⟨ev0, hev0, hy⟩ := List.mem_map.mp (npMin_mem _ hmapne)
  obtain ⟨⟨j0, hj0⟩, hget⟩ := List.mem_iff_get.mp hev0
  have hj0n : j0 ∈ List.range bs.n_sb_h := List.mem_range.mpr hj0
  have hpairmem : (bs.edges_v.getD j0 0, bs.mat.mh.getD j0 0) ∈ holePairsList bs := by
    unfold holePairsList
    exact List.mem_map_of_mem (fun j => (bs.edges_v.getD j 0, bs.mat.mh.getD j 0)) hj0n
  have hmass : 0 < bs.mat.mh.getD j0 0 :=
    holePairsList_mass_pos bs h3 hmhh hmlh hmso _ hpairmem
  have hgetD : bs.edges_v.getD j0 0 = ev0 := by
    rw [List.getD_eq_getElem _ 0 hj0]
    rw [← hget]
    simp [List.get_eq_getElem]
  have harg : (bs.vbt + 10) + (bs.edges_v.getD j0 0) / const.e = 10 := by
    unfold BandStructure3D.vbt
    rw [hgetD, ← hy]
    ring
  refine list_sum_pos_of_mem _ ?_
    (_dos_single_subband ((bs.vbt + 10) + (bs.edges_v.getD j0 0) / const.e)
      (bs.mat.mh.getD j0 0) bs.dim "eV") ?_ ?_
  · intro y hy2
    obtain ⟨pr, hpr, rfl⟩ := List.mem_map.mp hy2
    rw [hdim]
    exact dos3_nonneg _ _ (holePairsList_mass_pos bs h3 hmhh hmlh hmso pr hpr)
  · exact List.mem_map.mpr ⟨_, hpairmem, rfl⟩
  · rw [hdim, harg]
    exact dos3_pos _ _ hmass (by norm_num)

theorem elecF_strictMono (bs : BandStructure3D) (hdim : bs.dim = 3) (hme : 0 < bs.mat.me)
    (hne : bs.edges_c ≠ []) (T : ℝ) (hT : 0 < T) :
    StrictMono (fun ef =>
      concSample bs.elecEnergyGrid (bs.dosElectrons bs.elecEnergyGrid) T ef) := by
  have hlenG : bs.elecEnergyGrid.length = 3000 := by
    unfold BandStructure3D.elecEnergyGrid
    exact linspace_length _ _ _
  have higrid : 2999 < bs.elecEnergyGrid.length := by
    rw [hlenG]
    norm_num
  have hiE : 2999 < (bs.dosElectrons bs.elecEnergyGrid).length := by
    unfold BandStructure3D.dosElectrons
    rw [List.length_map, hlenG]
    norm_num
  refine concSample_strictMono bs.elecEnergyGrid (bs.dosElectrons bs.elecEnergyGrid) T hT
    ?_ ?_ ?_ ?_ 2999 hiE ?_
  · unfold BandStructure3D.elecEnergyGrid
    exact linspace_chain_lt _ _ (by linarith) 3000
  · unfold BandStructure3D.dosElectrons
    rw [List.length_map]
  · rw [hlenG]
    norm_num
  · exact dosElectrons_mem_nonneg bs hdim hme _
  · have hlast : bs.elecEnergyGrid.get ⟨2999, higrid⟩ = bs.cbb + 5 := by
      have h := linspace_last (bs.cbb - 0.5) (bs.cbb + 5) 3000 (by norm_num)
      exact h
    rw [show (bs.dosElectrons bs.elecEnergyGrid).get ⟨2999, hiE⟩ =
        (bs.edges_c.map (fun ecj => _dos_single_subband
          (bs.elecEnergyGrid.get ⟨2999, higrid⟩ - ecj / const.e) bs.mat.me bs.dim "eV")).sum
      from dosElectrons_get bs bs.elecEnergyGrid 2999 higrid]
    rw [hlast]
    refine elec_sum_pos bs hdim hme hne _ ?_
    unfold BandStructure3D.cbb
    linarith

theorem holeF_strictMono (bs : BandStructure3D) (hdim : bs.dim = 3) (h3 : bs.n_sb_h ≤ 3)
    (hvne : bs.edges_v ≠ []) (hmhh : 0 < bs.mat.mhh) (hmlh : 0 < bs.mat.mlh)
    (hmso : 0 < bs.mat.mso) (T : ℝ) (hT : 0 < T) :
    StrictMono (fun ef => concSample bs.holesEnergyGrid (dosHolesVals bs) T ef) := by
  have hlenG : bs.holesEnergyGrid.length = 350 := by
    unfold BandStructure3D.holesEnergyGrid
    exact linspace_length _ _ _
  have higrid : 349 < bs.holesEnergyGrid.length := by
    rw [hlenG]
    norm_num
  have hiH : 349 < (dosHolesVals bs).length := by
    unfold dosHolesVals
    rw [List.length_map, hlenG]
    norm_num
  refine concSample_strictMono bs.holesEnergyGrid (dosHolesVals bs) T hT
    ?_ ?_ ?_ ?_ 349 hiH ?_
  · unfold BandStructure3D.holesEnergyGrid
    exact linspace_chain_lt _ _ (by linarith) 350
  · unfold dosHolesVals
    rw [List.length_map]
  · rw [hlenG]
    norm_num
  · exact dosHolesVals_nonneg bs hdim h3 hmhh hmlh hmso
  · have hlast : bs.holesEnergyGrid.get ⟨349, higrid⟩ = bs.vbt + 10 := by
      have h := linspace_last bs.vbt (bs.vbt + 10) 350 (by norm_num)
      exact h
    rw [show (dosHolesVals bs).get ⟨349, hiH⟩ =
        ((holePairsList bs).map (fun pr => _dos_single_subband
          (bs.holesEnergyGrid.get ⟨349, higrid⟩ + pr.1 / const.e) pr.2 bs.dim "eV")).sum
      from dosHolesVals_get bs 349 higrid]
    rw [hlast]
    exact hole_sum_pos bs hdim h3 hvne hmhh hmlh hmso

/-- Claim C3: for a bulk model with physically positive masses, a fixed
temperature T > 0 and densities d1 < d2, `get_Fermi_levels` yields an electron
Fermi level at d2 that is ≥ the one at d1, and a hole Fermi level at d2 that
is ≤ the one at d1.  The cache may be empty at T or hold the entry the
integration step builds (the only entries the program ever stores). -/
theorem C3_fermi_levels_monotone_in_density (mat : Material) (ec ev : List ℝ)
    (hme : 0 < mat.me) (hmhh : 0 < mat.mhh) (hmlh : 0 < mat.mlh) (hmso : 0 < mat.mso)
    (hcne : ec ≠ []) (hvne : ev ≠ []) (hv3 : ev.length ≤ 3)
    (T d1 d2 : ℝ) (hT : 0 < T) (hd : d1 < d2)
    (cache : ℝ → Option FermiEntry)
    (hcache : ∀ ent, cache T = some ent →
      (BandStructure3D.init mat ec ev).buildEntry T = Except.ok ent) :
    ∃ p1 p2 c1 c2,
      (BandStructure3D.init mat ec ev).get_Fermi_levels cache T d1 = Except.ok (p1, c1) ∧
      (BandStructure3D.init mat ec ev).get_Fermi_levels cache T d2 = Except.ok (p2, c2) ∧
      p1.2 ≤ p2.2 ∧ p2.1 ≤ p1.1 := by
  set bs := BandStructure3D.init mat ec ev with hbs
  have hdim : bs.dim = 3 := rfl
  have hmeb : 0 < bs.mat.me := hme
  have h3 : bs.n_sb_h ≤ 3 := hv3
  have hcneb : bs.edges_c ≠ [] := by
    rw [hbs]
    unfold BandStructure3D.init
    simp [hcne]
  have hvneb : bs.edges_v ≠ [] := hvne
  have hFe := elecF_strictMono bs hdim hmeb hcneb T hT
  have hFh := holeF_strictMono bs hdim h3 hvneb hmhh hmlh hmso T hT
  have hmonoE : ∀ e1 e2 : ℝ, e1 ≤ e2 →
      interp1d (builtEntry bs T).elecX (builtEntry bs T).elecY e1 ≤
      interp1d (builtEntry bs T).elecX (builtEntry bs T).elecY e2 := by
    intro e1 e2 h
    exact interp1d_graph_mono _ hFe bs.elecProbe e1 e2 h
  have hmonoH : ∀ e1 e2 : ℝ, e1 ≤ e2 →
      interp1d (builtEntry bs T).holesX (builtEntry bs T).holesY e1 ≤
      interp1d (builtEntry bs T).holesX (builtEntry bs T).holesY e2 := by
    intro e1 e2 h
    exact interp1d_graph_mono _ hFh bs.holesProbe e1 e2 h
  have hvalsnd : ∀ dd : ℝ, (bs.evalEntry (builtEntry bs T) dd).2 =
      (interp1d (builtEntry bs T).elecX (builtEntry bs T).elecY dd + npMin bs.edges_c) *
        const.e := fun _ => rfl
  have hvalfst : ∀ dd : ℝ, (bs.evalEntry (builtEntry bs T) dd).1 =
      (-(interp1d (builtEntry bs T).holesX (builtEntry bs T).holesY dd) -
        npMin (bs.edges_v.map (fun x => -x))) * const.e := fun _ => rfl
  have hkey : ∀ ent, bs.buildEntry T = Except.ok ent →
      (bs.evalEntry ent d1).2 ≤ (bs.evalEntry ent d2).2 ∧
      (bs.evalEntry ent d2).1 ≤ (bs.evalEntry ent d1).1 := by
    intro ent hent
    have hb := buildEntry_ok bs h3 T
    rw [hb] at hent
    have hment : ent = builtEntry bs T := (Except.ok.inj hent).symm
    subst hment
    constructor
    · rw [hvalsnd d1, hvalsnd d2]
      exact mul_le_mul_of_nonneg_right
        (add_le_add_right (hmonoE d1 d2 hd.le) _) const_e_pos.le
    · rw [hvalfst d1, hvalfst d2]
      have hh := hmonoH d1 d2 hd.le
      apply mul_le_mul_of_nonneg_right _ const_e_pos.le
      linarith
  cases hcc : cache T with
  | some ent =>
    have hent := hcache ent hcc
    refine ⟨bs.evalEntry ent d1, bs.evalEntry ent d2, cache, cache, ?_, ?_,
      (hkey ent hent).1, (hkey ent hent).2⟩
    · unfold BandStructure3D.get_Fermi_levels
      rw [hcc]
    · unfold BandStructure3D.get_Fermi_levels
      rw [hcc]
  | none =>
    have hb := buildEntry_ok bs h3 T
    refine ⟨bs.evalEntry (builtEntry bs T) d1, bs.evalEntry (builtEntry bs T) d2,
      (fun t => if t = T then some (builtEntry bs T) else cache t),
      (fun t => if t = T then some (builtEntry bs T) else cache t), ?_, ?_,
      (hkey _ hb).1, (hkey _ hb).2⟩
    · unfold BandStructure3D.get_Fermi_levels
      rw [hcc, hb]
      rfl
    · unfold BandStructure3D.get_Fermi_levels
      rw [hcc, hb]
      rfl

/-- A simple material with unit masses for the C3 witness. -/
def matEx : Material :=
  { Eg := const.e, Eso := 0, me := 1, mhh := 1, mlh := 1, mso := 1,
    eps := 1, n_reff := 1, e_P := 1 }

/-- Witness for C3 on a concrete single-subband model with an empty cache. -/
theorem C3_witness :
    ∃ p1 p2 c1 c2,
      (BandStructure3D.init matEx [0] [0]).get_Fermi_levels (fun _ => none) 300 1 =
        Except.ok (p1, c1) ∧
      (BandStructure3D.init matEx [0] [0]).get_Fermi_levels (fun _ => none) 300 2 =
        Except.ok (p2, c2) ∧
      p1.2 ≤ p2.2 ∧ p2.1 ≤ p1.1 :=
  C3_fermi_levels_monotone_in_density matEx [0] [0]
    (by norm_num [matEx]) (by norm_num [matEx]) (by norm_num [matEx]) (by norm_num [matEx])
    (by simp) (by simp) (by norm_num)
    300 1 2 (by norm_num) (by norm_num)
    (fun _ => none) (by simp)

end SBE
